import Mathlib

/-!
Verification development for the goni prototype kernel.

Shallow embedding of the Rust sources under software/kernel:
  goni-embed, goni-receipts, goni-sched, goni-core, goni-policy,
  goni-context, goni-schema.

Modelling conventions:
  * usize / u32 / i64 are modelled as Nat / Int; wrap-around is irrelevant
    in the covered code paths and is noted where a cast occurs.
  * f32 / f64 quantities that only feed comparisons whose outcome the
    claims do not depend on (cosine similarities, relevance weights) are
    modelled as rationals, with the similarity function left as an explicit
    parameter standing for the floating-point cosine; theorems quantify
    over it.  The final normalisation step of the lexical embedding, which
    divides by a square root, is modelled over the reals.
  * SHA-256 is implemented bit-faithfully over lists of byte values
    (Nat < 256), so hash-dependent counterexamples are concrete.
-/

namespace Goni

/-! ## SHA-256 (as used by the `sha2` crate: one-shot digest of a byte string) -/

/-- Right rotation of a 32-bit word encoded as a `Nat`. -/
def rotr (k x : Nat) : Nat := (x / 2 ^ k + x % 2 ^ k * 2 ^ (32 - k)) % 2 ^ 32

/-- Logical right shift of a 32-bit word. -/
def shr (k x : Nat) : Nat := x / 2 ^ k

/-- Three-way xor. -/
def xor3 (a b c : Nat) : Nat := Nat.xor (Nat.xor a b) c

/-- SHA-256 Σ₀. -/
def bsig0 (x : Nat) : Nat := xor3 (rotr 2 x) (rotr 13 x) (rotr 22 x)

/-- SHA-256 Σ₁. -/
def bsig1 (x : Nat) : Nat := xor3 (rotr 6 x) (rotr 11 x) (rotr 25 x)

/-- SHA-256 σ₀. -/
def ssig0 (x : Nat) : Nat := xor3 (rotr 7 x) (rotr 18 x) (shr 3 x)

/-- SHA-256 σ₁. -/
def ssig1 (x : Nat) : Nat := xor3 (rotr 17 x) (rotr 19 x) (shr 10 x)

/-- SHA-256 Ch(x,y,z) = (x ∧ y) ⊕ (¬x ∧ z) on 32-bit words. -/
def ch (x y z : Nat) : Nat :=
  Nat.xor (Nat.land x y) (Nat.land (Nat.xor x (2 ^ 32 - 1)) z)

/-- SHA-256 Maj(x,y,z). -/
def maj (x y z : Nat) : Nat :=
  xor3 (Nat.land x y) (Nat.land x z) (Nat.land y z)

/-- The 64 SHA-256 round constants (FIPS 180-4, written in decimal). -/
def shaK : List Nat :=
  [1116352408, 1899447441, 3049323471, 3921009573, 961987163,
   1508970993, 2453635748, 2870763221, 3624381080, 310598401,
   607225278, 1426881987, 1925078388, 2162078206, 2614888103,
   3248222580, 3835390401, 4022224774, 264347078, 604807628,
   770255983, 1249150122, 1555081692, 1996064986, 2554220882,
   2821834349, 2952996808, 3210313671, 3336571891, 3584528711,
   113926993, 338241895, 666307205, 773529912, 1294757372,
   1396182291, 1695183700, 1986661051, 2177026350, 2456956037,
   2730485921, 2820302411, 3259730800, 3345764771, 3516065817,
   3600352804, 4094571909, 275423344, 430227734, 506948616,
   659060556, 883997877, 958139571, 1322822218, 1537002063,
   1747873779, 1955562222, 2024104815, 2227730452, 2361852424,
   2428436474, 2756734187, 3204031479, 3329325298]

/-- The SHA-256 initial hash value (FIPS 180-4, written in decimal). -/
def shaH0 : List Nat :=
  [1779033703, 3144134277, 1013904242, 2773480762, 1359893119,
   2600822924, 528734635, 1541459225]

/-- `k` bytes of `n`, big-endian. -/
def toBytesBE : Nat → Nat → List Nat
  | 0, _ => []
  | k + 1, n => toBytesBE k (n / 256) ++ [n % 256]

/-- Group a byte list into 32-bit big-endian words. -/
def bytesToWords : List Nat → List Nat
  | a :: b :: c :: d :: rest =>
      (a * 2 ^ 24 + b * 2 ^ 16 + c * 2 ^ 8 + d) :: bytesToWords rest
  | _ => []

/-- Extend a 16-word block to the 64-word message schedule (48 extension steps). -/
def shaSchedule : List Nat → Nat → List Nat
  | ws, 0 => ws
  | ws, k + 1 =>
      let i := ws.length
      let w := (ws.getD (i - 16) 0 + ssig0 (ws.getD (i - 15) 0)
                + ws.getD (i - 7) 0 + ssig1 (ws.getD (i - 2) 0)) % 2 ^ 32
      shaSchedule (ws ++ [w]) k

/-- One SHA-256 round on the state [a,b,c,d,e,f,g,h]. -/
def compressStep (st : List Nat) (kw : Nat × Nat) : List Nat :=
  match st with
  | [a, b, c, d, e, f, g, h] =>
      let t1 := (h + bsig1 e + ch e f g + kw.1 + kw.2) % 2 ^ 32
      let t2 := (bsig0 a + maj a b c) % 2 ^ 32
      [(t1 + t2) % 2 ^ 32, a, b, c, (d + t1) % 2 ^ 32, e, f, g]
  | other => other

/-- Process one 16-word block, chaining into the hash state. -/
def processBlock (h : List Nat) (block : List Nat) : List Nat :=
  let w := shaSchedule block 48
  let st := (shaK.zip w).foldl compressStep h
  (h.zip st).map (fun p => (p.1 + p.2) % 2 ^ 32)

/-- SHA-256 padding: append 0x80, zeros, and the 64-bit big-endian bit length. -/
def padMessage (msg : List Nat) : List Nat :=
  let len := msg.length
  let padZeros := (119 - len % 64) % 64
  msg ++ [0x80] ++ List.replicate padZeros 0 ++ toBytesBE 8 (len * 8)

/-- Split a list into 64-element chunks (fuelled structural recursion). -/
def chunksOfAux : Nat → List Nat → List (List Nat)
  | 0, _ => []
  | _, [] => []
  | fuel + 1, l => l.take 64 :: chunksOfAux fuel (l.drop 64)

/-- Split a byte list into 64-byte blocks. -/
def chunks64 (l : List Nat) : List (List Nat) := chunksOfAux l.length l

/-- SHA-256 digest: 32 output bytes from a list of input bytes. -/
def sha256 (msg : List Nat) : List Nat :=
  let blocks := chunks64 (padMessage msg)
  let hFinal := blocks.foldl (fun h b => processBlock h (bytesToWords b)) shaH0
  (hFinal.map (toBytesBE 4)).flatten

/-- UTF-8 encoding of one character (code point → byte sequence). -/
def utf8Char (c : Char) : List Nat :=
  let n := c.toNat
  if n < 0x80 then [n]
  else if n < 0x800 then [0xc0 + n / 64, 0x80 + n % 64]
  else if n < 0x10000 then
    [0xe0 + n / 4096, 0x80 + n / 64 % 64, 0x80 + n % 64]
  else
    [0xf0 + n / 262144, 0x80 + n / 4096 % 64, 0x80 + n / 64 % 64, 0x80 + n % 64]

/-- UTF-8 bytes of a character list. -/
def utf8Bytes (cs : List Char) : List Nat := (cs.map utf8Char).flatten

/-- UTF-8 bytes of a string. -/
def strBytes (s : String) : List Nat := utf8Bytes s.toList

/-- Lowercase hex digit for a value below 16. -/
def hexDigit (n : Nat) : Char :=
  if n < 10 then Char.ofNat (48 + n) else Char.ofNat (87 + n)

/-- Lowercase hex rendering of a byte list (two digits per byte). -/
def hexOfBytes (bs : List Nat) : String :=
  String.mk ((bs.map (fun b => [hexDigit (b / 16), hexDigit (b % 16)])).flatten)

/-- Known-answer sanity check: first word of SHA-256("a"). -/
example : (sha256 (strBytes "a")).take 4 = [0xca, 0x97, 0x81, 0x12] := by decide

/-! ## goni-embed: deterministic lexical embedding (`embed` in goni-embed/src/lib.rs)

The Rust code splits on whitespace, hashes each token with SHA-256, adds
±1 into bucket `digest[0] % dim`, then divides by the Euclidean norm when
it is positive.  The accumulation is exact integer arithmetic (also in
f32); the final division is modelled over the reals. -/

/-- Whitespace tokenizer: Rust `str::split_whitespace` (non-empty runs
between whitespace characters). -/
def splitWsAux : List Char → List Char → List (List Char)
  | [], acc => if acc.isEmpty then [] else [acc.reverse]
  | c :: cs, acc =>
      if c.isWhitespace then
        if acc.isEmpty then splitWsAux cs [] else acc.reverse :: splitWsAux cs []
      else splitWsAux cs (c :: acc)

/-- Whitespace-separated tokens of a string, as character lists. -/
def splitWhitespaceTokens (s : String) : List (List Char) := splitWsAux s.toList []

/-- The integer accumulation loop of `embed`: one ±1 per token into bucket
`digest[0] % dim`, sign from the parity of `digest[1]`.

Note: for `dim = 0` the Rust code would panic on `% 0`; the model follows
Lean's `n % 0 = n` convention there and the theorems about `embed` are
stated for `0 < dim`. -/
def embedStep (dim : Nat) (v : List Int) (token : List Char) : List Int :=
  let digest := sha256 (utf8Bytes token)
  let idx := digest.getD 0 0 % dim
  let sign : Int := if digest.getD 1 0 % 2 = 0 then 1 else -1
  v.set idx (v.getD idx 0 + sign)

/-- The whole accumulation loop of `embed`. -/
def embedRaw (text : String) (dim : Nat) : List Int :=
  (splitWhitespaceTokens text).foldl (embedStep dim) (List.replicate dim 0)

/-- Squared Euclidean norm of the integer accumulation (a rational/integer
quantity; its square root is the `norm` computed by the Rust code). -/
def rawNormSq (text : String) (dim : Nat) : Int :=
  ((embedRaw text dim).map (fun x => x * x)).sum

/-- `embed(text, dim)`: the accumulated vector, divided componentwise by
its Euclidean norm when that norm is positive (idealised real arithmetic
in place of f32). -/
noncomputable def embed (text : String) (dim : Nat) : List ℝ :=
  let v := embedRaw text dim
  let norm : ℝ := Real.sqrt ((rawNormSq text dim : ℤ) : ℝ)
  if 0 < norm then v.map (fun x : Int => (x : ℝ) / norm)
  else v.map (fun x : Int => (x : ℝ))

/-- Squared Euclidean norm of a real vector. -/
def normSq (l : List ℝ) : ℝ := (l.map (fun x => x * x)).sum

/-! ## goni-receipts: hash-chained receipt log (goni-receipts/src/lib.rs) -/

/-- A receipt line.  `receipt_id` and `capability_id` are the `to_string`
forms of the Rust `Uuid` values (only their string rendering enters the
hash). -/
structure Receipt where
  receipt_id : String
  timestamp : String
  action_type : String
  policy_decision : String
  capability_id : Option String
  input_hash : String
  output_hash : String
  prev_hash : Option String
  chain_hash : String
deriving DecidableEq, Repr

/-- `hash_receipt`: SHA-256 over the concatenated field renderings, in the
source's update order (absent options contribute nothing), lowercase hex.
Incremental `Digest::update` calls hash the concatenation of their
arguments. -/
def hash_receipt (r : Receipt) : String :=
  hexOfBytes (sha256 (strBytes
    (r.receipt_id ++ r.timestamp ++ r.action_type ++ r.policy_decision
      ++ r.capability_id.getD "" ++ r.input_hash ++ r.output_hash
      ++ r.prev_hash.getD "")))

/-- State of an open `ReceiptLog`: the JSONL file contents (as parsed
records, one per line) plus the cached chain tail `last_hash`. -/
structure ReceiptLogState where
  lines : List Receipt
  last_hash : Option String
deriving DecidableEq, Repr

/-- `ReceiptLog::open` on a non-existent file: empty file, tail `None`. -/
def ReceiptLog.openFresh : ReceiptLogState := ⟨[], none⟩

/-- `ReceiptLog::append`: overwrite `prev_hash` with the chain tail,
recompute `chain_hash` (which does not read the stored `chain_hash`),
write the record as one line, advance the tail. -/
def ReceiptLog.append (st : ReceiptLogState) (receipt : Receipt) : ReceiptLogState :=
  let r1 := { receipt with prev_hash := st.last_hash }
  let r2 := { r1 with chain_hash := hash_receipt r1 }
  { lines := st.lines ++ [r2], last_hash := some r2.chain_hash }

/-- Append a whole list of receipts through one log handle. -/
def ReceiptLog.appendAll (st : ReceiptLogState) (rs : List Receipt) : ReceiptLogState :=
  rs.foldl ReceiptLog.append st

/-- The line-by-line loop of `verify_log`, carrying the previous entry's
chain hash. -/
def verifyGo : Option String → List Receipt → Except String Unit
  | _, [] => .ok ()
  | prev, r :: rest =>
      if r.prev_hash ≠ prev then .error "hash chain mismatch"
      else if r.chain_hash ≠ hash_receipt r then .error "chain hash invalid"
      else verifyGo (some r.chain_hash) rest

/-- `verify_log` over the parsed file contents. -/
def verify_log (lines : List Receipt) : Except String Unit := verifyGo none lines

/-- Chain tail recovered from a file (`read_last_hash` keeps the last
line's `chain_hash`), relative to a start value. -/
def chainTailFrom (start : Option String) : List Receipt → Option String
  | [] => start
  | r :: rest => chainTailFrom (some r.chain_hash) rest

/-! ## goni-types / goni-sched: task classes and the two schedulers -/

/-- `TaskClass` (goni-types). -/
inductive TaskClass where
  | Interactive
  | Background
  | Maintenance
deriving DecidableEq, Repr

/-- `BatchMeta` (goni-types).  `arrival_ts` (an opaque `Instant` never
inspected by the scheduler) is omitted; `id` is the 128-bit uuid as a
`Nat`. -/
structure BatchMeta where
  id : Nat
  taskClass : TaskClass
  est_tokens : Nat
deriving DecidableEq, Repr

/-- `GoniBatch` (goni-types).  The `data : Arc<RecordBatch>` payload is
opaque to the scheduler (`submit_user_query` always passes an empty
batch) and is omitted from the scheduler model. -/
structure GoniBatch where
  meta : BatchMeta
deriving DecidableEq, Repr

/-- `idx_for`: queue index of a task class. -/
def idx_for : TaskClass → Nat
  | .Interactive => 0
  | .Background => 1
  | .Maintenance => 2

/-- State behind `InMemoryScheduler`'s mutex: three FIFO queues and the
per-class weights.  Weights are f64 in Rust, but the constructor only
ever installs the integers 1000 / 10 / 1, and every score
`weight * queue length` for any realizable queue (length < 2⁵³) is an
integer that f64 represents exactly, so ℤ models the score comparisons
faithfully. -/
structure InMemoryScheduler where
  queues : List (List GoniBatch)
  weights : List ℤ
deriving DecidableEq, Repr

/-- `InMemoryScheduler::new`: empty queues, weights 1000 / 10 / 1. -/
def InMemoryScheduler.new : InMemoryScheduler :=
  { queues := [[], [], []], weights := [1000, 10, 1] }

/-- `InMemoryScheduler::submit`: push to the back of the class queue. -/
def InMemoryScheduler.submit (s : InMemoryScheduler) (batch : GoniBatch) :
    InMemoryScheduler × Except String Unit :=
  let idx := idx_for batch.meta.taskClass
  ({ s with queues := s.queues.set idx (s.queues.getD idx [] ++ [batch]) }, .ok ())

/-- One iteration of the `next` scan over queue `i`: skip empty queues,
else keep the strictly greatest `weight * length`.  `best_score` starts
at `f64::MIN`, below every reachable score, which the `Option`
accumulator models. -/
def maxWeightStep (s : InMemoryScheduler) (acc : Option (Nat × ℤ)) (i : Nat) :
    Option (Nat × ℤ) :=
  let q := s.queues.getD i []
  if q.length = 0 then acc
  else
    let score := s.weights.getD i 0 * (q.length : ℤ)
    match acc with
    | none => some (i, score)
    | some best => if score > best.2 then some (i, score) else acc

/-- `InMemoryScheduler::next`: scan all queues in index order, keep the
non-empty queue with strictly greatest `weight * length`, pop its head. -/
def InMemoryScheduler.next (s : InMemoryScheduler) :
    InMemoryScheduler × Option GoniBatch :=
  let best := (List.range s.queues.length).foldl (maxWeightStep s) none
  match best with
  | some (idx, _) =>
      match s.queues.getD idx [] with
      | [] => (s, none)
      | b :: rest => ({ s with queues := s.queues.set idx rest }, some b)
  | none => (s, none)

/-- State behind `QoSScheduler`'s mutex: three FIFO queues and per-class
WIP ceilings (`usize::MAX` for Interactive). -/
structure QoSScheduler where
  queues : List (List GoniBatch)
  maxWip : List Nat
deriving DecidableEq, Repr

/-- `usize::MAX` on a 64-bit target. -/
def USIZE_MAX : Nat := 2 ^ 64 - 1

/-- `QoSScheduler::new(max_background, max_maintenance)`. -/
def QoSScheduler.new (maxBackground maxMaintenance : Nat) : QoSScheduler :=
  { queues := [[], [], []], maxWip := [USIZE_MAX, maxBackground, maxMaintenance] }

/-- `QoSScheduler::submit`: reject with `wip_limit_reached` when the class
queue is at its ceiling, else push to the back. -/
def QoSScheduler.submit (s : QoSScheduler) (batch : GoniBatch) :
    QoSScheduler × Except String Unit :=
  let idx := idx_for batch.meta.taskClass
  if (s.queues.getD idx []).length ≥ s.maxWip.getD idx 0 then
    (s, .error "wip_limit_reached")
  else
    ({ s with queues := s.queues.set idx (s.queues.getD idx [] ++ [batch]) }, .ok ())

/-- `QoSScheduler::next`: strict class order Interactive, Background,
Maintenance. -/
def QoSScheduler.next (s : QoSScheduler) : QoSScheduler × Option GoniBatch :=
  match s.queues.getD 0 [] with
  | b :: rest => ({ s with queues := s.queues.set 0 rest }, some b)
  | [] =>
    match s.queues.getD 1 [] with
    | b :: rest => ({ s with queues := s.queues.set 1 rest }, some b)
    | [] =>
      match s.queues.getD 2 [] with
      | b :: rest => ({ s with queues := s.queues.set 2 rest }, some b)
      | [] => (s, none)

/-! ## goni-policy: capability scopes and budget ledger -/

/-- `PolicyDecision`. -/
inductive PolicyDecision where
  | Allow
  | Deny (reason : String)
deriving DecidableEq, Repr

/-- `CapabilityToken`. -/
structure CapabilityToken where
  token_id : String
  scopes : List String
  expires_at : Option String
deriving DecidableEq, Repr

/-- `BudgetLedger` (all three counters are i64). -/
structure BudgetLedger where
  bytes_remaining : Int
  tokens_remaining : Int
  tool_calls_remaining : Int
deriving DecidableEq, Repr

/-- `BudgetLedger::debit_tool_call`: deny when the counter is already
non-positive, else decrement.  Returns the updated ledger (the Rust
method mutates in place). -/
def BudgetLedger.debit_tool_call (l : BudgetLedger) :
    Except PolicyDecision BudgetLedger :=
  if l.tool_calls_remaining ≤ 0 then
    .error (.Deny "tool_call_budget_exhausted")
  else
    .ok { l with tool_calls_remaining := l.tool_calls_remaining - 1 }

/-- `PolicyEngine::evaluate_tool`: scope check, then one tool-call debit.
Returns the decision and the ledger after the call (unchanged on any
deny). -/
def evaluate_tool (token : CapabilityToken) (tool_id : String)
    (ledger : BudgetLedger) : PolicyDecision × BudgetLedger :=
  if ¬ token.scopes.any (fun s => s == tool_id || s == "*") then
    (.Deny "scope_not_allowed", ledger)
  else
    match ledger.debit_tool_call with
    | .error decision => (decision, ledger)
    | .ok ledger1 => (.Allow, ledger1)

/-! ## goni-core: `GoniKernel::submit_user_query`

The kernel is generic over `Arc<dyn Scheduler>`; the model takes the
scheduler state type and its `submit` as parameters.  `Uuid::new_v4` is a
fresh random id, passed in as `batchId`; the oneshot sender held by the
pending record is not inspected by `submit_user_query` and is omitted. -/

/-- `PendingRequest` (sans the oneshot sender). -/
structure PendingRequest where
  prompt : String
  taskClass : TaskClass
deriving DecidableEq, Repr

/-- Kernel state visible to `submit_user_query`: the scheduler and the
mutex-guarded pending map (association list keyed by batch id). -/
structure KernelState (S : Type) where
  sched : S
  pending : List (Nat × PendingRequest)
deriving DecidableEq, Repr

/-- `GoniKernel::submit_user_query`: insert the pending record, build the
metadata-only batch (`est_tokens = max(1, whitespace token count)`),
submit it, and propagate a submit failure with `?`.  The source removes
nothing from `pending` on the error path. -/
def submit_user_query {S : Type}
    (submitFn : S → GoniBatch → S × Except String Unit)
    (batchId : Nat) (prompt : String) (cls : TaskClass)
    (st : KernelState S) : KernelState S × Except String Nat :=
  let pending1 := (batchId, PendingRequest.mk prompt cls) :: st.pending
  let batch : GoniBatch :=
    ⟨⟨batchId, cls, max (splitWhitespaceTokens prompt).length 1⟩⟩
  let (sched1, res) := submitFn st.sched batch
  match res with
  | .ok _ => (⟨sched1, pending1⟩, .ok batchId)
  | .error e => (⟨sched1, pending1⟩, .error e)

/-! ## goni-context: facility-location selector and the columnar bridge

Embedding components and similarities are f32 in Rust; they are modelled
as rationals, and the cosine similarity on embedding vectors is an
explicit parameter `cosSim` standing for the floating-point
`cosine_similarity`.  Every structural theorem below holds for all
`cosSim`, hence in particular for the value the floating-point code
computes. -/

/-- `CandidateChunk` (the borrowed view; slices become owned lists). -/
structure CandidateChunk where
  id : String
  text : Option String
  tokens : Nat
  embedding : List ℚ
  relevance : ℚ
deriving DecidableEq, Repr

/-- `ContextSelection` (goni-types).  Indices are `u32` in Rust, written
as `j as u32` for `j < candidates.len()`; they are modelled as `Nat`. -/
structure ContextSelection where
  indices : List Nat
  total_tokens : Nat
deriving DecidableEq, Repr

/-- Embedding of candidate `i` (out-of-range reads never occur on the
used indices). -/
def embOf (cands : List CandidateChunk) (i : Nat) : List ℚ :=
  (cands.getD i ⟨"", none, 0, [], 0⟩).embedding

/-- Token count of candidate `i`. -/
def tokOf (cands : List CandidateChunk) (i : Nat) : Nat :=
  (cands.getD i ⟨"", none, 0, [], 0⟩).tokens

/-- Relevance of candidate `i`. -/
def relOf (cands : List CandidateChunk) (i : Nat) : ℚ :=
  (cands.getD i ⟨"", none, 0, [], 0⟩).relevance

/-- The precomputed similarity matrix: `sim[i][j] = max(cos(e_i, e_j), 0)`
(step 1 of `select`). -/
def simMatrix (cosSim : List ℚ → List ℚ → ℚ) (cands : List CandidateChunk)
    (i j : Nat) : ℚ :=
  max (cosSim (embOf cands i) (embOf cands j)) 0

/-- Marginal coverage gain of adding `j`:
`Σ_i (max(cov[i], sim(i,j)) − cov[i])`. -/
def gainCov (sim : Nat → Nat → ℚ) (cov : Nat → ℚ) (n j : Nat) : ℚ :=
  ((List.range n).map (fun i => max (cov i) (sim i j) - cov i)).sum

/-- One step of the inner scan of the greedy loop: skip selected or
non-fitting candidates, else keep `j` on strict gain improvement. -/
def scanStep (gamma : ℚ) (sim : Nat → Nat → ℚ) (cands : List CandidateChunk)
    (n : Nat) (selected : Nat → Bool) (cov : Nat → ℚ) (remaining : Nat)
    (best : ℚ × Option Nat) (j : Nat) : ℚ × Option Nat :=
  if selected j then best
  else if tokOf cands j > remaining then best
  else
    let gain := gainCov sim cov n j + gamma * relOf cands j
    if gain > best.1 then (gain, some j) else best

/-- The inner scan of the greedy loop: over all unselected, fitting `j`,
keep the first index attaining the strictly greatest gain (initial best
gain 0, strict improvement — the source's stable tie-break). -/
def scanBest (gamma : ℚ) (sim : Nat → Nat → ℚ) (cands : List CandidateChunk)
    (n : Nat) (selected : Nat → Bool) (cov : Nat → ℚ) (remaining : Nat) :
    ℚ × Option Nat :=
  (List.range n).foldl (scanStep gamma sim cands n selected cov remaining) (0, none)

/-- The greedy selection loop of `select`.  The Rust `loop` terminates
because every iteration marks a fresh index, so `n` iterations of fuel
reproduce it exactly; `remaining - tok` is Rust's `saturating_sub` (and
the scan guarantees `tok ≤ remaining`).  Returns the picked indices in
selection order. -/
def selectLoop (gamma : ℚ) (sim : Nat → Nat → ℚ) (cands : List CandidateChunk)
    (n : Nat) : Nat → (Nat → Bool) → (Nat → ℚ) → Nat → List Nat
  | 0, _, _, _ => []
  | fuel + 1, selected, cov, remaining =>
      let best := scanBest gamma sim cands n selected cov remaining
      match best.2 with
      | some j =>
          if best.1 > 0 then
            let selected1 := fun k => if k = j then true else selected k
            let cov1 := fun i => max (cov i) (sim i j)
            let remaining1 := remaining - tokOf cands j
            if remaining1 = 0 then [j]
            else j :: selectLoop gamma sim cands n fuel selected1 cov1 remaining1
          else []
      | none => []

/-- `FacilityLocationSelector::select` with weight `gamma` (the selector
struct's one field).  The query embedding is unused by the source
(`_query_embedding`) but kept in the signature. -/
def FacilityLocationSelector.select (gamma : ℚ)
    (cosSim : List ℚ → List ℚ → ℚ) (_queryEmbedding : List ℚ)
    (candidates : List CandidateChunk) (maxTokens : Nat) : ContextSelection :=
  let n := candidates.length
  if n = 0 ∨ maxTokens = 0 then ⟨[], 0⟩
  else
    let sim := simMatrix cosSim candidates
    let indices :=
      selectLoop gamma sim candidates n n (fun _ => false) (fun _ => 0) maxTokens
    ⟨indices, (indices.map (tokOf candidates)).sum⟩

/-! ### Columnar bridge: `record_batch_to_candidate_chunks`

The model starts after the column lookup and downcasts succeed with one
of the two supported tokens types (any other Arrow type returns
`InvalidColumnType` before the row loop).  A `RecordBatch` is modelled by
the per-row contents of the relevant columns. -/

/-- `CandidateBuildError`. -/
inductive CandidateBuildError where
  | MissingColumn (name : String)
  | InvalidColumnType (name : String)
  | EmbeddingDimMismatch (expected actual : Nat)
deriving DecidableEq, Repr

/-- The tokens column: `Int32Array` or `UInt32Array` values per row. -/
inductive TokensColumn where
  | int32 (vals : List Int)
  | uint32 (vals : List Nat)
deriving DecidableEq, Repr

/-- The columns of a record batch that the converter reads.  `ids` holds
`none` for a null row; `texts` is `none` when the optional `text` column
is absent; `embeddingDim` is the fixed list size; `embeddings` the per-row
vectors. -/
structure RecordBatchModel where
  ids : List (Option String)
  texts : Option (List (Option String))
  tokensCol : TokensColumn
  embeddingDim : Nat
  embeddings : List (List ℚ)
deriving Repr

/-- Tokens of a row: `none` means the row is skipped (`continue`).  The
signed case skips `v ≤ 0`; the unsigned case converts unconditionally. -/
def tokensAt (tc : TokensColumn) (row : Nat) : Option Nat :=
  match tc with
  | .int32 vals =>
      let v := vals.getD row 0
      if v ≤ 0 then none else some v.toNat
  | .uint32 vals => some (vals.getD row 0)

/-- `record_batch_to_candidate_chunks`: dimension check, then the row loop
(null ids and non-positive signed token counts are skipped). -/
def record_batch_to_candidate_chunks (cosSim : List ℚ → List ℚ → ℚ)
    (batch : RecordBatchModel) (query_embedding : List ℚ) :
    Except CandidateBuildError (List CandidateChunk) :=
  if batch.embeddingDim ≠ query_embedding.length then
    .error (.EmbeddingDimMismatch query_embedding.length batch.embeddingDim)
  else
    .ok ((List.range batch.ids.length).filterMap (fun row =>
      match batch.ids.getD row none with
      | none => none
      | some idStr =>
          let textVal :=
            match batch.texts with
            | none => none
            | some ts => ts.getD row none
          match tokensAt batch.tokensCol row with
          | none => none
          | some tok =>
              let emb := batch.embeddings.getD row []
              some ⟨idStr, textVal, tok, emb, cosSim query_embedding emb⟩))

/-! ## goni-schema: planes and the TXT-axiom batch check -/

/-- `Plane` (goni-schema/src/plane.rs). -/
inductive Plane where
  | Knowledge
  | Context
  | Control
  | Execution
deriving DecidableEq, Repr

/-- The Arrow data types the table DSL can produce (`__ty_to_arrow`).
Nested parameters irrelevant to the TXT check are dropped. -/
inductive ArrowType where
  | FixedSizeBinary (n : Nat)
  | Utf8
  | LargeUtf8
  | UInt32
  | UInt16
  | UInt8
  | Int64
  | Int32
  | Int16
  | Boolean
  | Float32
  | Float64
  | DictU8Utf8
  | MapUtf8Utf8
  | ListUtf8
  | FixedSizeListF32 (n : Nat)
  | TimestampMsUtc
deriving DecidableEq, Repr

/-- An Arrow schema field. -/
structure ArrowField where
  name : String
  dataType : ArrowType
  nullable : Bool
deriving DecidableEq, Repr

/-- Printable plane name (Rust `{:?}` of `Plane`). -/
def planeName : Plane → String
  | .Knowledge => "Knowledge"
  | .Context => "Context"
  | .Control => "Control"
  | .Execution => "Execution"

/-- `__check_txt_invariants`: for a Control or Execution table, fail on
the first `LargeUtf8` column of the supplied schema. -/
def check_txt_invariants (tableName : String) (plane : Plane)
    (schema : List ArrowField) : Except String Unit :=
  if plane = .Control ∨ plane = .Execution then
    match schema.find? (fun f => f.dataType == .LargeUtf8) with
    | some f =>
        .error ("TXT axiom violated: table " ++ tableName ++ " in plane "
          ++ planeName plane ++ " has LargeUtf8 column " ++ f.name)
    | none => .ok ()
  else .ok ()

/-- The typed batch wrapper the `define_tables!` macro generates: it holds
the underlying batch (modelled by its schema). -/
structure TableWrapper where
  innerSchema : List ArrowField
deriving DecidableEq, Repr

/-- The generated `new`: run `__check_txt_invariants` against the supplied
batch's schema, then wrap. -/
def tableNew (tableName : String) (plane : Plane)
    (batchSchema : List ArrowField) : Except String TableWrapper :=
  match check_txt_invariants tableName plane batchSchema with
  | .error e => .error e
  | .ok _ => .ok ⟨batchSchema⟩

/-! ## Helper definitions used by the theorems -/

/-- Submit a list of batches to the MaxWeight scheduler in order
(`submit` never fails there). -/
def submitAll (s : InMemoryScheduler) (bs : List GoniBatch) : InMemoryScheduler :=
  bs.foldl (fun s b => (InMemoryScheduler.submit s b).1) s

/-- A receipt with the caller-supplied chain fields blanked: the part of
the argument that `ReceiptLog::append` actually reads. -/
def eraseChainFields (r : Receipt) : Receipt :=
  { r with prev_hash := none, chain_hash := "" }

/-! # Theorems -/

/-! ## C8: the TXT-axiom check at batch construction -/

/-- C8: for every generated table wrapper, the generated `new` (which runs
`__check_txt_invariants`) fails exactly when the table's plane is Control
or Execution and the supplied batch schema has a `LargeUtf8` column; in
particular it never fails for Knowledge or Context tables. -/
theorem tableNew_fails_iff_txt_violation (tableName : String) (plane : Plane)
    (batchSchema : List ArrowField) :
    (tableNew tableName plane batchSchema).toOption = none ↔
      ((plane = .Control ∨ plane = .Execution) ∧
        batchSchema.any (fun f => f.dataType == .LargeUtf8) = true) := by
  unfold tableNew check_txt_invariants
  by_cases hp : plane = .Control ∨ plane = .Execution
  · rw [if_pos hp]
    cases hfind : batchSchema.find? (fun f => f.dataType == .LargeUtf8) with
    | none =>
        have hany : batchSchema.any (fun f => f.dataType == .LargeUtf8) = false := by
          rw [List.any_eq_false]
          intro f hf
          have := List.find?_eq_none.mp hfind f hf
          simpa using this
        simp [Except.toOption, hany]
    | some f =>
        have hany : batchSchema.any (fun f => f.dataType == .LargeUtf8) = true := by
          rw [List.any_eq_true]
          exact ⟨f, List.mem_of_find?_eq_some hfind, by simpa using List.find?_some hfind⟩
        simp [Except.toOption, hany, hp]
  · rw [if_neg hp]
    simp [Except.toOption, hp]

/-! ## C7: QoS admission control at the WIP ceiling -/

/-- C7: a `QoSScheduler::submit` against a class queue at its WIP ceiling
fails with `wip_limit_reached` and returns the scheduler state (all three
queues) unchanged. -/
theorem qos_submit_at_ceiling (s : QoSScheduler) (b : GoniBatch)
    (h : (s.queues.getD (idx_for b.meta.taskClass) []).length ≥
      s.maxWip.getD (idx_for b.meta.taskClass) 0) :
    QoSScheduler.submit s b = (s, .error "wip_limit_reached") := by
  unfold QoSScheduler.submit
  rw [if_pos h]

/-- Witness for C7: `QoSScheduler::new(0, 0)` puts Background at its
ceiling immediately, and a Background submit is rejected unchanged. -/
theorem qos_submit_at_ceiling_witness :
    ((QoSScheduler.new 0 0).queues.getD
        (idx_for (GoniBatch.mk ⟨3, .Background, 1⟩).meta.taskClass) []).length ≥
      (QoSScheduler.new 0 0).maxWip.getD
        (idx_for (GoniBatch.mk ⟨3, .Background, 1⟩).meta.taskClass) 0 ∧
    QoSScheduler.submit (QoSScheduler.new 0 0) ⟨⟨3, .Background, 1⟩⟩ =
      (QoSScheduler.new 0 0, .error "wip_limit_reached") :=
  ⟨by decide, qos_submit_at_ceiling (QoSScheduler.new 0 0) ⟨⟨3, .Background, 1⟩⟩ (by decide)⟩

/-! ## C6: tool-call debiting in `evaluate_tool` -/

/-- Counterexample to C6 as stated: with one tool call remaining, debiting
would take the counter to 0, i.e. non-positive, so the claim demands
`Deny("tool_call_budget_exhausted")`; the code allows the call and leaves
the counter at 0.  (`BudgetLedger::debit_tool_call` tests the counter
before subtracting, not after.) -/
theorem evaluate_tool_allows_last_call :
    (CapabilityToken.mk "tk" ["demo.echo"] none).scopes.any
        (fun s => s == "demo.echo" || s == "*") = true ∧
    (BudgetLedger.mk 0 0 1).tool_calls_remaining - 1 ≤ 0 ∧
    evaluate_tool (CapabilityToken.mk "tk" ["demo.echo"] none) "demo.echo"
        (BudgetLedger.mk 0 0 1) ≠
      (PolicyDecision.Deny "tool_call_budget_exhausted", BudgetLedger.mk 0 0 1) ∧
    evaluate_tool (CapabilityToken.mk "tk" ["demo.echo"] none) "demo.echo"
        (BudgetLedger.mk 0 0 1) = (PolicyDecision.Allow, BudgetLedger.mk 0 0 0) := by
  decide

/-- C6 amended: when the token's scopes contain the tool id or the
wildcard, the call is denied with `tool_call_budget_exhausted` exactly
when the tool-call counter is already non-positive before the debit, and
on that denial the ledger is unchanged; otherwise one tool-call is
debited and the call is allowed. -/
theorem evaluate_tool_debits_when_scoped (token : CapabilityToken)
    (tool_id : String) (ledger : BudgetLedger)
    (hscope : token.scopes.any (fun s => s == tool_id || s == "*") = true) :
    evaluate_tool token tool_id ledger =
      if ledger.tool_calls_remaining ≤ 0 then
        (PolicyDecision.Deny "tool_call_budget_exhausted", ledger)
      else
        (PolicyDecision.Allow,
          { ledger with tool_calls_remaining := ledger.tool_calls_remaining - 1 }) := by
  unfold evaluate_tool BudgetLedger.debit_tool_call
  rw [if_neg (by simp [hscope])]
  by_cases h : ledger.tool_calls_remaining ≤ 0
  · rw [if_pos h, if_pos h]
  · rw [if_neg h, if_neg h]

/-- Witness for C6 amended: scoped token, two calls remaining → allowed
and debited to one. -/
theorem evaluate_tool_debits_when_scoped_witness :
    (CapabilityToken.mk "tk" ["a.b"] none).scopes.any
        (fun s => s == "a.b" || s == "*") = true ∧
    evaluate_tool (CapabilityToken.mk "tk" ["a.b"] none) "a.b"
        (BudgetLedger.mk 5 5 2) =
      if (BudgetLedger.mk 5 5 2).tool_calls_remaining ≤ 0 then
        (PolicyDecision.Deny "tool_call_budget_exhausted", BudgetLedger.mk 5 5 2)
      else
        (PolicyDecision.Allow,
          { BudgetLedger.mk 5 5 2 with
              tool_calls_remaining := (BudgetLedger.mk 5 5 2).tool_calls_remaining - 1 }) :=
  ⟨by decide,
    evaluate_tool_debits_when_scoped (CapabilityToken.mk "tk" ["a.b"] none) "a.b"
      (BudgetLedger.mk 5 5 2) (by decide)⟩

/-! ## C4: pending-map cleanup when the scheduler rejects a submit -/

/-- C4 (code bug): with `QoSScheduler::new(0, 0)` as the scheduler, a
Background `submit_user_query` propagates the submit failure, but the
pending map still holds the record for the generated batch id when it
returns — the source's error path never removes the inserted entry. -/
theorem submit_user_query_error_keeps_pending :
    (submit_user_query (fun s b => QoSScheduler.submit s b) 7 "hi"
        TaskClass.Background ⟨QoSScheduler.new 0 0, []⟩).2 =
      .error "wip_limit_reached" ∧
    ((submit_user_query (fun s b => QoSScheduler.submit s b) 7 "hi"
        TaskClass.Background ⟨QoSScheduler.new 0 0, []⟩).1.pending.lookup 7) =
      some ⟨"hi", TaskClass.Background⟩ :=
  ⟨rfl, rfl⟩

/-! ## C5: token-count filtering in `record_batch_to_candidate_chunks` -/

/-- Counterexample to C5 as stated: in the UInt32 tokens-column case a row
whose token count is 0 is not skipped — the unsigned branch converts
unconditionally — so the returned chunk list contains a chunk with a
non-positive (zero) token count. -/
theorem record_batch_uint32_keeps_zero_tokens :
    ((record_batch_to_candidate_chunks (fun _ _ => 0)
        ⟨[some "r"], none, .uint32 [0], 1, [[1]]⟩ [1]).toOption.getD []).map
      CandidateChunk.tokens = [0] := by
  decide

/-- C5 amended: in the Int32 tokens-column case, every row with a
non-positive token count is skipped, so no returned chunk has a
non-positive token count (the UInt32 case performs no such filtering and
can yield chunks with token count 0). -/
theorem record_batch_int32_chunks_positive (cosSim : List ℚ → List ℚ → ℚ)
    (ids : List (Option String)) (texts : Option (List (Option String)))
    (vals : List Int) (dim : Nat) (embs : List (List ℚ)) (query : List ℚ) :
    ((record_batch_to_candidate_chunks cosSim ⟨ids, texts, .int32 vals, dim, embs⟩
        query).toOption.getD []).all (fun c => decide (0 < c.tokens)) = true := by
  unfold record_batch_to_candidate_chunks
  by_cases hdim : dim ≠ query.length
  · rw [if_pos hdim]
    rfl
  · rw [if_neg hdim]
    simp only [Except.toOption, Option.getD_some]
    rw [List.all_eq_true]
    intro c hc
    rw [List.mem_filterMap] at hc
    obtain ⟨row, _, hrow⟩ := hc
    split at hrow
    · exact absurd hrow (by simp)
    · split at hrow
      · exact absurd hrow (by simp)
      · rename_i idStr _ tok htok
        simp only [tokensAt] at htok
        split at htok
        · exact absurd htok (by simp)
        · rename_i hpos
          obtain rfl : _ = c := Option.some.inj hrow
          simp only [decide_eq_true_eq]
          show 0 < tok
          have : tok = (vals.getD row 0).toNat := (Option.some.inj htok).symm
          omega

/-! ## C3: MaxWeight dispatch of an Interactive batch after a Background backlog -/

set_option maxRecDepth 8000

/-- Counterexample to C3 as stated: after 101 Background submits the
Background score is 10 · 101 = 1010 > 1000 = 1000 · 1, so `next` pops a
Background batch, not the Interactive one. -/
theorem next_after_101_background_is_background :
    ((InMemoryScheduler.next (submitAll InMemoryScheduler.new
        (((List.range 101).map (fun i => GoniBatch.mk ⟨i, .Background, 1⟩)) ++
          [GoniBatch.mk ⟨1000, .Interactive, 1⟩]))).2.map
      (fun b => b.meta.taskClass)) = some TaskClass.Background := by
  decide

/-- Submitting only Background batches from a fresh MaxWeight scheduler
accumulates them, in order, in queue 1. -/
theorem submitAll_background (bgs : List GoniBatch)
    (hbg : bgs.all (fun b => b.meta.taskClass == TaskClass.Background) = true) :
    ∀ (q0 q1 q2 : List GoniBatch) (w : List ℤ), submitAll ⟨[q0, q1, q2], w⟩ bgs = ⟨[q0, q1 ++ bgs, q2], w⟩ := by
  induction bgs with
  | nil => intro q0 q1 q2 w; simp [submitAll]
  | cons b rest ih =>
      intro q0 q1 q2 w
      rw [List.all_cons, Bool.and_eq_true] at hbg
      have hb : b.meta.taskClass = TaskClass.Background := by
        have := hbg.1; simpa using this
      have hsub : (InMemoryScheduler.submit ⟨[q0, q1, q2], w⟩ b).1 =
          ⟨[q0, q1 ++ [b], q2], w⟩ := by
        unfold InMemoryScheduler.submit
        rw [hb]
        rfl
      show submitAll ((InMemoryScheduler.submit ⟨[q0, q1, q2], w⟩ b).1) rest = _
      rw [hsub, ih hbg.2]
      simp

/-- `next` on the state reached after at most 100 Background batches and
one Interactive batch pops the Interactive one: 1000 · 1 is scanned first
and 10 · |bg queue| ≤ 1000 never strictly beats it. -/
theorem next_pops_interactive (bgs : List GoniBatch) (ib : GoniBatch)
    (hlen : bgs.length ≤ 100) :
    (InMemoryScheduler.next ⟨[[ib], bgs, []], [1000, 10, 1]⟩).2 = some ib := by
  have e0 : maxWeightStep ⟨[[ib], bgs, []], [1000, 10, 1]⟩ none 0 =
      some (0, 1000 * (([ib].length : Nat) : ℤ)) := rfl
  have e1 : maxWeightStep ⟨[[ib], bgs, []], [1000, 10, 1]⟩
      (some (0, 1000 * (([ib].length : Nat) : ℤ))) 1 =
      some (0, 1000 * (([ib].length : Nat) : ℤ)) := by
    cases bgs with
    | nil => rfl
    | cons b rest =>
        simp only [maxWeightStep]
        split
        · rfl
        · split
          · rename_i hgt
            exfalso
            have h100 : (((b :: rest).length : Nat) : ℤ) ≤ 100 := by
              exact_mod_cast hlen
            simp only [List.getD_cons_succ, List.getD_cons_zero,
              List.length_cons, List.length_singleton] at hgt h100
            push_cast at hgt h100
            linarith
          · rfl
  have e2 : maxWeightStep ⟨[[ib], bgs, []], [1000, 10, 1]⟩
      (some (0, 1000 * (([ib].length : Nat) : ℤ))) 2 =
      some (0, 1000 * (([ib].length : Nat) : ℤ)) := rfl
  show (match (List.foldl (maxWeightStep ⟨[[ib], bgs, []], [1000, 10, 1]⟩)
      none [0, 1, 2]) with
    | some (idx, _) =>
        match (⟨[[ib], bgs, []], [1000, 10, 1]⟩ : InMemoryScheduler).queues.getD idx [] with
        | [] => ((⟨[[ib], bgs, []], [1000, 10, 1]⟩ : InMemoryScheduler), none)
        | b :: rest =>
            ({ (⟨[[ib], bgs, []], [1000, 10, 1]⟩ : InMemoryScheduler) with
                queues := (⟨[[ib], bgs, []], [1000, 10, 1]⟩ :
                  InMemoryScheduler).queues.set idx rest }, some b)
    | none => ((⟨[[ib], bgs, []], [1000, 10, 1]⟩ : InMemoryScheduler), none)).2 = some ib
  rw [List.foldl_cons, List.foldl_cons, List.foldl_cons, List.foldl_nil, e0, e1, e2]
  rfl

/-- C3 amended: with the default weights, after at most 100 Background
submits (w_bg · n ≤ w_int · 1) followed by one Interactive submit, the
next call to `next` returns the Interactive batch.  Beyond 100 the
Background score strictly dominates and Background is dispatched
instead. -/
theorem next_interactive_after_bounded_backlog (bgs : List GoniBatch)
    (ib : GoniBatch) (hlen : bgs.length ≤ 100)
    (hbg : bgs.all (fun b => b.meta.taskClass == TaskClass.Background) = true)
    (hib : ib.meta.taskClass = TaskClass.Interactive) :
    (InMemoryScheduler.next (submitAll InMemoryScheduler.new (bgs ++ [ib]))).2 =
      some ib := by
  have h1 : submitAll InMemoryScheduler.new (bgs ++ [ib]) =
      ⟨[[ib], bgs, []], [1000, 10, 1]⟩ := by
    unfold submitAll
    rw [List.foldl_append]
    have h0 : submitAll InMemoryScheduler.new bgs =
        ⟨[[], [] ++ bgs, []], [1000, 10, 1]⟩ :=
      submitAll_background bgs hbg [] [] [] [1000, 10, 1]
    unfold submitAll at h0
    rw [h0]
    simp only [List.nil_append, List.foldl_cons, List.foldl_nil]
    unfold InMemoryScheduler.submit
    rw [hib]
    simp [idx_for]
  rw [h1]
  exact next_pops_interactive bgs ib hlen

/-- Witness for C3 amended: one Background batch then one Interactive
batch → `next` yields the Interactive batch. -/
theorem next_interactive_after_bounded_backlog_witness :
    [GoniBatch.mk ⟨0, .Background, 1⟩].length ≤ 100 ∧
    [GoniBatch.mk ⟨0, .Background, 1⟩].all
      (fun b => b.meta.taskClass == TaskClass.Background) = true ∧
    (GoniBatch.mk ⟨9, .Interactive, 2⟩).meta.taskClass = TaskClass.Interactive ∧
    (InMemoryScheduler.next (submitAll InMemoryScheduler.new
        ([GoniBatch.mk ⟨0, .Background, 1⟩] ++ [GoniBatch.mk ⟨9, .Interactive, 2⟩]))).2 =
      some (GoniBatch.mk ⟨9, .Interactive, 2⟩) :=
  ⟨by decide, by decide, by decide,
    next_interactive_after_bounded_backlog [GoniBatch.mk ⟨0, .Background, 1⟩]
      (GoniBatch.mk ⟨9, .Interactive, 2⟩) (by decide) (by decide) (by decide)⟩

/-! ## C2: the hash chain built by `append` verifies -/

/-- `hash_receipt` never reads the stored `chain_hash`. -/
theorem hash_receipt_ignores_chain (r : Receipt) (x : String) :
    hash_receipt { r with chain_hash := x } = hash_receipt r := rfl

/-- The chain tail of an extended file. -/
theorem chainTailFrom_append (xs : List Receipt) :
    ∀ (p : Option String) (r : Receipt),
      chainTailFrom p (xs ++ [r]) = some r.chain_hash := by
  induction xs with
  | nil => intro p r; rfl
  | cons x rest ih => intro p r; exact ih (some x.chain_hash) r

/-- A verified file stays verified after appending one correctly chained
entry. -/
theorem verifyGo_append (lines : List Receipt) :
    ∀ (prev : Option String) (r : Receipt),
      verifyGo prev lines = .ok () →
      r.prev_hash = chainTailFrom prev lines →
      r.chain_hash = hash_receipt r →
      verifyGo prev (lines ++ [r]) = .ok () := by
  induction lines with
  | nil =>
      intro prev r _ hprev hchain
      have hp : r.prev_hash = prev := hprev
      simp [verifyGo, hp, hchain]
  | cons x rest ih =>
      intro prev r h hprev hchain
      rw [List.cons_append]
      simp only [verifyGo] at h ⊢
      by_cases h1 : x.prev_hash ≠ prev
      · rw [if_pos h1] at h
        exact absurd h (by simp)
      · rw [if_neg h1] at h ⊢
        by_cases h2 : x.chain_hash ≠ hash_receipt x
        · rw [if_pos h2] at h
          exact absurd h (by simp)
        · rw [if_neg h2] at h ⊢
          exact ih (some x.chain_hash) r h hprev hchain

/-- A successfully verified file is prev/chain linked: consecutive
entries reference each other and the first entry references the start
value. -/
theorem verifyGo_chain (lines : List Receipt) :
    ∀ (prev : Option String), verifyGo prev lines = .ok () →
      List.Chain' (fun a b => b.prev_hash = some a.chain_hash) lines ∧
      ∀ r ∈ lines.head?, r.prev_hash = prev := by
  induction lines with
  | nil => intro prev _; simp
  | cons x rest ih =>
      intro prev h
      simp only [verifyGo] at h
      by_cases h1 : x.prev_hash ≠ prev
      · rw [if_pos h1] at h
        exact absurd h (by simp)
      · rw [if_neg h1] at h
        by_cases h2 : x.chain_hash ≠ hash_receipt x
        · rw [if_pos h2] at h
          exact absurd h (by simp)
        · rw [if_neg h2] at h
          obtain ⟨hchain, hhead⟩ := ih (some x.chain_hash) h
          constructor
          · rw [List.chain'_cons']
            exact ⟨hhead, hchain⟩
          · intro r hr
            have hx : x = r := by simpa using hr
            subst hx
            exact not_ne_iff.mp h1

/-- One `append` preserves the log invariant (file verifies, cached tail
matches the file). -/
theorem append_preserves_inv (st : ReceiptLogState) (r : Receipt)
    (h1 : verifyGo none st.lines = .ok ())
    (h2 : chainTailFrom none st.lines = st.last_hash) :
    verifyGo none (ReceiptLog.append st r).lines = .ok () ∧
    chainTailFrom none (ReceiptLog.append st r).lines =
      (ReceiptLog.append st r).last_hash := by
  constructor
  · apply verifyGo_append st.lines none _ h1
    · exact h2.symm
    · rfl
  · exact chainTailFrom_append st.lines none _

/-- Appending any list of receipts through one handle preserves the log
invariant. -/
theorem appendAll_preserves_inv (rs : List Receipt) :
    ∀ st : ReceiptLogState, verifyGo none st.lines = .ok () →
      chainTailFrom none st.lines = st.last_hash →
      verifyGo none (ReceiptLog.appendAll st rs).lines = .ok () ∧
      chainTailFrom none (ReceiptLog.appendAll st rs).lines =
        (ReceiptLog.appendAll st rs).last_hash := by
  induction rs with
  | nil => intro st hv ht; exact ⟨hv, ht⟩
  | cons r rest ih =>
      intro st hv ht
      obtain ⟨hv1, ht1⟩ := append_preserves_inv st r hv ht
      exact ih (ReceiptLog.append st r) hv1 ht1

/-- C2: for every sequence of receipts appended through a single
`ReceiptLog` handle opened on a fresh file, `verify_log` on the resulting
file succeeds, each entry's `prev_hash` equals the previous entry's
`chain_hash`, and the first entry's `prev_hash` is null. -/
theorem receipts_append_then_verify (rs : List Receipt) :
    verify_log (ReceiptLog.appendAll ReceiptLog.openFresh rs).lines = .ok () ∧
    List.Chain' (fun a b => b.prev_hash = some a.chain_hash)
      (ReceiptLog.appendAll ReceiptLog.openFresh rs).lines ∧
    ((ReceiptLog.appendAll ReceiptLog.openFresh rs).lines.map
      Receipt.prev_hash).headD none = none := by
  have hv := (appendAll_preserves_inv rs ReceiptLog.openFresh rfl rfl).1
  obtain ⟨hchain, hhead⟩ :=
    verifyGo_chain (ReceiptLog.appendAll ReceiptLog.openFresh rs).lines none hv
  refine ⟨hv, hchain, ?_⟩
  cases hl : (ReceiptLog.appendAll ReceiptLog.openFresh rs).lines with
  | nil => rfl
  | cons x xs =>
      rw [hl] at hhead
      have := hhead x (by simp)
      simp [this]

/-- Concrete check of the receipts model: three appends from a fresh log
verify, with real SHA-256 chain hashes. -/
example :
    verify_log (ReceiptLog.appendAll ReceiptLog.openFresh
      [Receipt.mk "r1" "t1" "demo" "allow" none "a" "b" none "",
       Receipt.mk "r2" "t2" "demo" "allow" (some "cap") "c" "d" none "",
       Receipt.mk "r3" "t3" "demo" "deny" none "e" "f" none ""]).lines =
      .ok () := rfl

/-! ## C10: `append` is independent of the caller-supplied chain fields -/

/-- C10: `ReceiptLog::append` overwrites both `prev_hash` and
`chain_hash` before hashing and writing, so two receipts that agree on
all other fields produce the same written line and the same chain tail,
whatever `prev_hash`/`chain_hash` the caller supplied. -/
theorem append_ignores_caller_chain_fields (st : ReceiptLogState)
    (r1 r2 : Receipt) (h : eraseChainFields r1 = eraseChainFields r2) :
    ReceiptLog.append st r1 = ReceiptLog.append st r2 := by
  cases r1 with
  | mk a1 b1 c1 d1 e1 f1 g1 p1 ch1 =>
      cases r2 with
      | mk a2 b2 c2 d2 e2 f2 g2 p2 ch2 =>
          simp only [eraseChainFields, Receipt.mk.injEq, and_true] at h
          obtain ⟨ha, hb, hc, hd, he, hf, hg⟩ := h
          subst ha; subst hb; subst hc; subst hd; subst he; subst hf; subst hg
          rfl

/-- Witness for C10: chain junk in the argument does not change the
appended line. -/
theorem append_ignores_caller_chain_fields_witness :
    eraseChainFields (Receipt.mk "i" "t" "demo" "allow" none "x" "y"
        (some "deadbeef") "cafe") =
      eraseChainFields (Receipt.mk "i" "t" "demo" "allow" none "x" "y" none "") ∧
    ReceiptLog.append ReceiptLog.openFresh
        (Receipt.mk "i" "t" "demo" "allow" none "x" "y" (some "deadbeef") "cafe") =
      ReceiptLog.append ReceiptLog.openFresh
        (Receipt.mk "i" "t" "demo" "allow" none "x" "y" none "") :=
  ⟨by decide,
    append_ignores_caller_chain_fields ReceiptLog.openFresh
      (Receipt.mk "i" "t" "demo" "allow" none "x" "y" (some "deadbeef") "cafe")
      (Receipt.mk "i" "t" "demo" "allow" none "x" "y" none "") (by decide)⟩

/-! ## C1: invariants of `FacilityLocationSelector::select` -/

/-- Whenever the best-candidate scan settles on some index `j`, then `j`
was unselected, its tokens fit the remaining budget, and `j` is in
range. -/
theorem scanBest_some (gamma : ℚ) (sim : Nat → Nat → ℚ)
    (cands : List CandidateChunk) (n : Nat) (selected : Nat → Bool)
    (cov : Nat → ℚ) (remaining : Nat) :
    ∀ j, (scanBest gamma sim cands n selected cov remaining).2 = some j →
      selected j = false ∧ tokOf cands j ≤ remaining ∧ j < n := by
  have aux : ∀ (l : List Nat) (b : ℚ × Option Nat),
      (∀ j, b.2 = some j → selected j = false ∧ tokOf cands j ≤ remaining ∧ j < n) →
      (∀ j ∈ l, j < n) →
      ∀ j, (l.foldl (scanStep gamma sim cands n selected cov remaining) b).2 =
          some j →
        selected j = false ∧ tokOf cands j ≤ remaining ∧ j < n := by
    intro l
    induction l with
    | nil => intro b hb _ j h; exact hb j h
    | cons x rest ih =>
        intro b hb hl j h
        rw [List.foldl_cons] at h
        refine ih _ ?_ (fun j' hj' => hl j' (List.mem_cons_of_mem _ hj')) j h
        intro j' hj'
        simp only [scanStep] at hj'
        by_cases hsel : selected x = true
        · rw [if_pos hsel] at hj'; exact hb j' hj'
        · rw [if_neg hsel] at hj'
          by_cases hfit : tokOf cands x > remaining
          · rw [if_pos hfit] at hj'; exact hb j' hj'
          · rw [if_neg hfit] at hj'
            by_cases hg : gainCov sim cov n x + gamma * relOf cands x > b.1
            · rw [if_pos hg] at hj'
              obtain rfl : x = j' := by simpa using hj'
              exact ⟨Bool.not_eq_true _ ▸ eq_false_of_ne_true hsel,
                Nat.le_of_not_lt hfit, hl x (List.mem_cons_self x rest)⟩
            · rw [if_neg hg] at hj'; exact hb j' hj'
  intro j h
  refine aux (List.range n) (0, none) ?_ ?_ j h
  · intro j' hj'; simp at hj'
  · intro j' hj'; simpa using hj'

/-- Loop invariant of the greedy selection: every picked index was
unselected at entry and is in range, the picks are pairwise distinct, and
their total token count never exceeds the remaining budget. -/
theorem selectLoop_spec (gamma : ℚ) (sim : Nat → Nat → ℚ)
    (cands : List CandidateChunk) (n : Nat) :
    ∀ (fuel : Nat) (selected : Nat → Bool) (cov : Nat → ℚ) (remaining : Nat),
      (∀ k ∈ selectLoop gamma sim cands n fuel selected cov remaining,
        selected k = false ∧ k < n) ∧
      (selectLoop gamma sim cands n fuel selected cov remaining).Nodup ∧
      ((selectLoop gamma sim cands n fuel selected cov remaining).map
        (tokOf cands)).sum ≤ remaining := by
  intro fuel
  induction fuel with
  | zero => intro selected cov remaining; simp [selectLoop]
  | succ fuel ih =>
      intro selected cov remaining
      cases hsc : (scanBest gamma sim cands n selected cov remaining).2 with
      | none =>
          simp only [selectLoop, hsc]
          simp
      | some j =>
          obtain ⟨hsel, hfit, hlt⟩ :=
            scanBest_some gamma sim cands n selected cov remaining j hsc
          simp only [selectLoop, hsc]
          by_cases hg : (scanBest gamma sim cands n selected cov remaining).1 > 0
          · rw [if_pos hg]
            by_cases hrem : remaining - tokOf cands j = 0
            · rw [if_pos hrem]
              refine ⟨?_, List.nodup_singleton j, ?_⟩
              · intro k hk
                obtain rfl := List.mem_singleton.mp hk
                exact ⟨hsel, hlt⟩
              · simpa using hfit
            · rw [if_neg hrem]
              obtain ⟨ihmem, ihnodup, ihsum⟩ :=
                ih (fun k => if k = j then true else selected k)
                  (fun i => max (cov i) (sim i j)) (remaining - tokOf cands j)
              refine ⟨?_, ?_, ?_⟩
              · intro k hk
                rcases List.mem_cons.mp hk with rfl | hk'
                · exact ⟨hsel, hlt⟩
                · obtain ⟨hks, hkn⟩ := ihmem k hk'
                  refine ⟨?_, hkn⟩
                  by_cases hkj : k = j
                  · rw [if_pos hkj] at hks; cases hks
                  · rwa [if_neg hkj] at hks
              · rw [List.nodup_cons]
                refine ⟨?_, ihnodup⟩
                intro hjm
                obtain ⟨hjs, _⟩ := ihmem j hjm
                rw [if_pos rfl] at hjs
                cases hjs
              · rw [List.map_cons, List.sum_cons]
                omega
          · rw [if_neg hg]
            simp

/-- C1: for every similarity function, weight, query embedding, candidate
list, and token budget, `FacilityLocationSelector::select` returns a
selection whose total token count is within the budget, whose indices are
pairwise distinct, and whose indices are all valid positions in the
candidate list. -/
theorem select_satisfies_invariants (gamma : ℚ)
    (cosSim : List ℚ → List ℚ → ℚ) (query : List ℚ)
    (cands : List CandidateChunk) (B : Nat) :
    (FacilityLocationSelector.select gamma cosSim query cands B).total_tokens ≤ B ∧
    (FacilityLocationSelector.select gamma cosSim query cands B).indices.Nodup ∧
    (FacilityLocationSelector.select gamma cosSim query cands B).indices.all
      (fun i => decide (i < cands.length)) = true := by
  unfold FacilityLocationSelector.select
  by_cases h0 : cands.length = 0 ∨ B = 0
  · rw [if_pos h0]
    exact ⟨Nat.zero_le B, List.nodup_nil, rfl⟩
  · rw [if_neg h0]
    obtain ⟨hmem, hnodup, hsum⟩ :=
      selectLoop_spec gamma (simMatrix cosSim cands) cands cands.length
        cands.length (fun _ => false) (fun _ => 0) B
    refine ⟨hsum, hnodup, ?_⟩
    rw [List.all_eq_true]
    intro i hi
    exact decide_eq_true (hmem i hi).2

/-! ## C9: the lexical embedding is deterministic and unit-norm or zero -/

/-- Each accumulation step preserves the vector length. -/
theorem embedStep_length (dim : Nat) (v : List Int) (token : List Char) :
    (embedStep dim v token).length = v.length := by
  simp [embedStep]

/-- The accumulated vector has length `dim`. -/
theorem embedRaw_length (t : String) (d : Nat) : (embedRaw t d).length = d := by
  unfold embedRaw
  have aux : ∀ (ts : List (List Char)) (v : List Int),
      (ts.foldl (embedStep d) v).length = v.length := by
    intro ts
    induction ts with
    | nil => intro v; rfl
    | cons x rest ih =>
        intro v
        rw [List.foldl_cons, ih, embedStep_length]
  rw [aux, List.length_replicate]

/-- A sum of integer squares is non-negative. -/
theorem sumSq_nonneg (l : List Int) : 0 ≤ (l.map (fun x => x * x)).sum := by
  apply List.sum_nonneg
  intro x hx
  obtain ⟨y, _, rfl⟩ := List.mem_map.mp hx
  exact mul_self_nonneg y

/-- A sum of integer squares vanishes only if every entry vanishes. -/
theorem sumSq_eq_zero (l : List Int) (h : (l.map (fun x => x * x)).sum = 0) :
    ∀ x ∈ l, x = 0 := by
  induction l with
  | nil => simp
  | cons a rest ih =>
      rw [List.map_cons, List.sum_cons] at h
      have h1 : 0 ≤ a * a := mul_self_nonneg a
      have h2 : 0 ≤ (rest.map (fun x => x * x)).sum := sumSq_nonneg rest
      have ha : a * a = 0 := le_antisymm (by linarith) h1
      have hs : (rest.map (fun x => x * x)).sum = 0 := by linarith
      intro x hx
      rcases List.mem_cons.mp hx with rfl | hx'
      · exact mul_self_eq_zero.mp ha
      · exact ih hs x hx'

/-- Counterexample to C9 as stated: "a d" has two whitespace tokens, yet
`embed("a d", 1)` is the zero vector, not a unit vector — SHA-256("a")
contributes −1 and SHA-256("d") contributes +1 to the single bucket, the
accumulation cancels to zero, and the code skips normalisation when the
norm is not positive. -/
theorem embed_cancellation_breaks_unit_norm :
    splitWhitespaceTokens "a d" ≠ [] ∧ normSq (embed "a d" 1) ≠ 1 := by
  refine ⟨by decide, ?_⟩
  have hraw : embedRaw "a d" 1 = [0] := by decide
  have hns : rawNormSq "a d" 1 = 0 := by decide
  have he : embed "a d" 1 = [(0 : ℝ)] := by
    simp [embed, hns, hraw, Real.sqrt_zero]
  rw [he]
  simp [normSq]

/-- C9 amended: `embed(t, d)` (for a positive dimension, where the Rust
code cannot panic on `% 0`) is deterministic — it is a pure function of
its arguments — has length `d`, returns the zero vector when `t` has no
whitespace tokens, and more generally returns the zero vector exactly
when the integer accumulation cancels to zero (which nonempty token lists
can produce); in every other case it is a unit vector. -/
theorem embed_deterministic_unit_or_zero (t : String) (d : Nat) (_hd : 0 < d) :
    embed t d = embed t d ∧
    (embed t d).length = d ∧
    (splitWhitespaceTokens t = [] → embed t d = List.replicate d 0) ∧
    (rawNormSq t d = 0 → embed t d = List.replicate d 0) ∧
    (rawNormSq t d ≠ 0 → normSq (embed t d) = 1) := by
  have hzero : rawNormSq t d = 0 → embed t d = List.replicate d 0 := by
    intro hz
    have hv : embedRaw t d = List.replicate d 0 := by
      rw [List.eq_replicate_iff]
      exact ⟨embedRaw_length t d, fun b hb => sumSq_eq_zero (embedRaw t d) hz b hb⟩
    simp [embed, hz, hv, Real.sqrt_zero]
  refine ⟨rfl, ?_, ?_, hzero, ?_⟩
  · unfold embed
    dsimp only
    split
    · rw [List.length_map, embedRaw_length]
    · rw [List.length_map, embedRaw_length]
  · intro htok
    apply hzero
    unfold rawNormSq embedRaw
    rw [htok]
    simp
  · intro hz
    have h0 : (0 : ℤ) ≤ rawNormSq t d := sumSq_nonneg (embedRaw t d)
    have hNpos : (0 : ℤ) < rawNormSq t d := lt_of_le_of_ne h0 (Ne.symm hz)
    have hNR : (0 : ℝ) < ((rawNormSq t d : ℤ) : ℝ) := by exact_mod_cast hNpos
    have hnorm : 0 < Real.sqrt ((rawNormSq t d : ℤ) : ℝ) := Real.sqrt_pos.mpr hNR
    unfold embed
    rw [if_pos hnorm]
    unfold normSq
    rw [List.map_map]
    have hcomp : ((fun y : ℝ => y * y) ∘ fun x : Int =>
          (x : ℝ) / Real.sqrt ((rawNormSq t d : ℤ) : ℝ)) =
        fun x : Int => ((x : ℝ) * (x : ℝ)) * (((rawNormSq t d : ℤ) : ℝ))⁻¹ := by
      funext x
      show ((x : ℝ) / Real.sqrt _) * ((x : ℝ) / Real.sqrt _) = _
      rw [div_mul_div_comm, Real.mul_self_sqrt hNR.le, div_eq_mul_inv]
    rw [hcomp]
    rw [List.sum_map_mul_right]
    have hsum : ((embedRaw t d).map fun x : Int => (x : ℝ) * (x : ℝ)).sum =
        ((rawNormSq t d : ℤ) : ℝ) := by
      unfold rawNormSq
      push_cast
      rw [List.map_map]
      simp [Function.comp_def]
    rw [hsum, mul_inv_cancel₀ (ne_of_gt hNR)]

/-- Witness for C9 amended: dimension 2 is positive, the empty prompt has
no whitespace tokens, and `embed("", 2)` is the zero vector. -/
theorem embed_deterministic_unit_or_zero_witness :
    0 < 2 ∧ splitWhitespaceTokens "" = [] ∧
    embed "" 2 = List.replicate 2 0 :=
  ⟨by decide, by decide,
    (embed_deterministic_unit_or_zero "" 2 (by decide)).2.2.1 (by decide)⟩

end Goni
